import Mathlib

/-!
Shallow embedding of `src/index.ts` (rbxts-reflector): a runtime metadata
registry for roblox-ts.  Targets are identified by reference identity; a
target may carry a hidden `__metadataStore` field mapping scope-id strings
to metadata maps (metadata key -> value).

Modelling choices, all taken from the source (Luau semantics):
* A target identity is a `Nat`.  `tostring(target)` is an opaque,
  per-object identity string (`"table: 0x...."` in Luau) that never
  contains a `'.'` character and is injective over live objects; we encode
  it as `identityString`, a dot-free injective encoding, which is all the
  code relies on.
* Maps (`Map<string, ...>`) compile to Lua tables.  Setting a key to
  `undefined` (`nil`) removes it, so a metadata map never stores the
  absence sentinel; `MMap.set` with `none` erases the key.  Insertion
  order of an association list stands in for iteration order.
* `undefined` values are `Option.none`; a possibly-absent target is an
  `Option Target`.  Indexing `nil` (as `createOrGetMetadataStore` does on
  its last line when `target` is nil) raises a Luau runtime error,
  embedded as `Except.error LuauError.indexNil`.
* Reads and writes thread the state (the assignment of store slots to
  targets) explicitly; methods that the source lets mutate return the new
  state, pure reads return the result paired with the unchanged state.
-/

/-- A runtime error raised by the Luau host (attempt to index nil). -/
inductive LuauError : Type where
  | indexNil : LuauError
deriving DecidableEq, Repr

/-- Reference identity of a target object or class. -/
abbrev Target : Type := Nat

/-- One scope's metadata map: `Map<string, any>` as an association list in
insertion order; the absence sentinel (`undefined` = `nil`) is never
stored, matching Lua table semantics. -/
abbrev MMap (α : Type) : Type := List (String × α)

/-- `map.get(key)` on a metadata map: `undefined` (`none`) when absent. -/
def MMap.get {α : Type} : MMap α → String → Option α
  | [], _ => none
  | (k, v) :: rest, key => if k = key then some v else MMap.get rest key

/-- `map.set(key, value)` on a metadata map.  A `none` value is `nil`, and
assigning `nil` into a Lua table removes the key. -/
def MMap.set {α : Type} : MMap α → String → Option α → MMap α
  | [], _, none => []
  | [], key, some v => [(key, v)]
  | (k, w) :: rest, key, none =>
      if k = key then rest else (k, w) :: MMap.set rest key none
  | (k, w) :: rest, key, some v =>
      if k = key then (key, v) :: rest else (k, w) :: MMap.set rest key (some v)

/-- The `MetadataStore` attached to one target:
`Map<string, Map<string, any>>` from scope-id strings to metadata maps. -/
abbrev MetadataStore (α : Type) : Type := List (String × MMap α)

/-- `store.get(keyId)` on a metadata store. -/
def MetadataStore.get {α : Type} : MetadataStore α → String → Option (MMap α)
  | [], _ => none
  | (k, m) :: rest, key => if k = key then some m else MetadataStore.get rest key

/-- `store.set(keyId, map)` on a metadata store (maps are never `nil`). -/
def MetadataStore.set {α : Type} : MetadataStore α → String → MMap α → MetadataStore α
  | [], key, mm => [(key, mm)]
  | (k, m) :: rest, key, mm =>
      if k = key then (key, mm) :: rest else (k, m) :: MetadataStore.set rest key mm

/-- `store.has(keyId)`. -/
def MetadataStore.hasKey {α : Type} (st : MetadataStore α) (key : String) : Bool :=
  (MetadataStore.get st key).isSome

/-- The whole reachable heap, restricted to what the reflector touches:
which `__metadataStore` (if any) each target object carries. -/
abbrev StoreState (α : Type) : Type := Target → Option (MetadataStore α)

/-- A heap in which no target has ever acquired a `__metadataStore`. -/
def emptyState {α : Type} : StoreState α := fun _ => none

/-- The identity string `tostring(target)` of a live target: opaque,
injective, and free of `'.'` characters (Luau renders tables as
`"table: 0x...."`).  Encoded as a run of `t + 1` copies of `'i'`, which
has exactly those two properties. -/
def identityString (t : Target) : String :=
  String.mk (List.replicate (t + 1) 'i')

/-- `tostring` applied to the (possibly nil) target argument. -/
def tostringTarget : Option Target → String
  | none => "nil"
  | some t => identityString t

/-- `getKeyId` (src/index.ts:11-13): the scope-id string, derived from the
target's identity string, with `"." .. tostring(propertyKey)` appended
when a member name is supplied. -/
def getKeyId (target : Option Target) (propertyKey : Option String) : String :=
  match propertyKey with
  | none => tostringTarget target
  | some pk => tostringTarget target ++ "." ++ pk

/-- `getMapKeys` (src/index.ts:21-29): pushes each key of the map, in
iteration order, onto a freshly created array (`new Array<K>(map.size())`
is `table.create`, i.e. capacity only, length 0). -/
def getMapKeys {α : Type} (mm : MMap α) : List String :=
  mm.map Prod.fst

/-- `Reflector.getMetadataStore` (src/index.ts:224-229): returns the
target's `__metadataStore` field, or `undefined` for a nil target or a
target that has no store yet.  Never creates anything. -/
def Reflector.getMetadataStore {α : Type} (target : Option Target) (s : StoreState α) :
    Option (MetadataStore α) :=
  match target with
  | none => none
  | some tg =>
      match s tg with
      | none => none
      | some st => some st

/-- `Reflector.createOrGetMetadataStore` (src/index.ts:238-244): if the
target is truthy and has no `__metadataStore`, attach a fresh empty one;
then return `target.__metadataStore`.  For a nil target the guard is
skipped and the final field access indexes nil, raising. -/
def Reflector.createOrGetMetadataStore {α : Type} (target : Option Target)
    (s : StoreState α) : Except LuauError (MetadataStore α × StoreState α) :=
  match target with
  | some tg =>
      match s tg with
      | none =>
          Except.ok (([] : MetadataStore α),
            fun x => if x = tg then some ([] : MetadataStore α) else s x)
      | some st => Except.ok (st, s)
  | none => Except.error LuauError.indexNil

/-- `Reflector.hasMetadata` (src/index.ts:185-195): false when the target
has no store, or the store has no map for the scope id, or that map yields
`undefined` for the metadata key; true otherwise.  Pure read: the state
component is returned untouched. -/
def Reflector.hasMetadata {α : Type} (target : Option Target) (metadataKey : String)
    (propertyKey : Option String) (s : StoreState α) : Bool × StoreState α :=
  match Reflector.getMetadataStore target s with
  | none => (false, s)
  | some metadataStore =>
      let keyId := getKeyId target propertyKey
      if ¬ MetadataStore.hasKey metadataStore keyId then (false, s)
      else if (MMap.get ((MetadataStore.get metadataStore keyId).getD []) metadataKey).isNone
        then (false, s)
      else (true, s)

/-- `Reflector.getMetadata` (src/index.ts:206-215): the stored value for
the key within scope `(target, propertyKey)`, or `undefined`.  The `!`
assertion on `metadataStore.get(keyId)` is guarded by the `has` test, so
the `getD []` default is unreachable.  Pure read. -/
def Reflector.getMetadata {α : Type} (target : Option Target) (metadataKey : String)
    (propertyKey : Option String) (s : StoreState α) : Option α × StoreState α :=
  match Reflector.getMetadataStore target s with
  | none => (none, s)
  | some metadataStore =>
      let keyId := getKeyId target propertyKey
      if MetadataStore.hasKey metadataStore keyId then
        (MMap.get ((MetadataStore.get metadataStore keyId).getD []) metadataKey, s)
      else (none, s)

/-- `Reflector.getMetadataKeys` (src/index.ts:140-151): `undefined` when
the target has no store or the scope has no map, otherwise the map's keys
via `getMapKeys`.  Pure read. -/
def Reflector.getMetadataKeys {α : Type} (target : Option Target)
    (propertyKey : Option String) (s : StoreState α) :
    Option (List String) × StoreState α :=
  match Reflector.getMetadataStore target s with
  | none => (none, s)
  | some metadataStore =>
      let keyId := getKeyId target propertyKey
      match MetadataStore.get metadataStore keyId with
      | none => (none, s)
      | some metadata => (some (getMapKeys metadata), s)

/-- The imperative path of `Reflector.defineMetadata`
(src/index.ts:101-110): get-or-create the store, and unless
`hasMetadata(target, metadataKey, propertyKey)` already holds, replace the
scope's map with a fresh empty one; then set `metadataKey -> value` in the
scope's map.  The in-place mutations of the store table are written back
to the target's slot.  The `none` target case after a successful
`createOrGetMetadataStore` cannot occur (that call raises first). -/
def Reflector.defineMetadata {α : Type} (target : Option Target) (metadataKey : String)
    (metadataValue : Option α) (propertyKey : Option String) (s : StoreState α) :
    Except LuauError (StoreState α) :=
  match Reflector.createOrGetMetadataStore target s with
  | Except.error e => Except.error e
  | Except.ok (metadataStore, s1) =>
      match target with
      | none => Except.error LuauError.indexNil
      | some tg =>
          let keyId := getKeyId target propertyKey
          let hasMd := (Reflector.hasMetadata target metadataKey propertyKey s1).1
          let store1 := if hasMd then metadataStore
                        else MetadataStore.set metadataStore keyId []
          match MetadataStore.get store1 keyId with
          | none => Except.error LuauError.indexNil
          | some mm =>
              Except.ok (fun x =>
                if x = tg then
                  some (MetadataStore.set store1 keyId
                          (MMap.set mm metadataKey metadataValue))
                else s1 x)

/-- The body of the annotator closure returned by the declarative overload
of `defineMetadata` (src/index.ts:89-97), invoked later by the host with a
target and an optional member name; `metadataKey` and `metadataValue` are
the captured construction-time arguments.  Statement for statement the
same as the imperative path. -/
def Reflector.invokeAnnotator {α : Type} (metadataKey : String) (metadataValue : Option α)
    (target : Option Target) (propertyKey : Option String) (s : StoreState α) :
    Except LuauError (StoreState α) :=
  match Reflector.createOrGetMetadataStore target s with
  | Except.error e => Except.error e
  | Except.ok (metadataStore, s1) =>
      match target with
      | none => Except.error LuauError.indexNil
      | some tg =>
          let keyId := getKeyId target propertyKey
          let hasMd := (Reflector.hasMetadata target metadataKey propertyKey s1).1
          let store1 := if hasMd then metadataStore
                        else MetadataStore.set metadataStore keyId []
          match MetadataStore.get store1 keyId with
          | none => Except.error LuauError.indexNil
          | some mm =>
              Except.ok (fun x =>
                if x = tg then
                  some (MetadataStore.set store1 keyId
                          (MMap.set mm metadataKey metadataValue))
                else s1 x)

/-- Run the imperative define against a live (non-nil) target, which never
raises; the error branch is dead and kept only to make the wrapper total. -/
def applyDefine {α : Type} (tg : Target) (metadataKey : String) (metadataValue : Option α)
    (propertyKey : Option String) (s : StoreState α) : StoreState α :=
  match Reflector.defineMetadata (some tg) metadataKey metadataValue propertyKey s with
  | Except.ok s2 => s2
  | Except.error _ => s

/-- Invoke the annotator closure on a live (non-nil) target; total wrapper
like `applyDefine`. -/
def applyAnnotator {α : Type} (metadataKey : String) (metadataValue : Option α)
    (tg : Target) (propertyKey : Option String) (s : StoreState α) : StoreState α :=
  match Reflector.invokeAnnotator metadataKey metadataValue (some tg) propertyKey s with
  | Except.ok s2 => s2
  | Except.error _ => s

/-- A Luau runtime value as it matters to the overload dispatch of
`defineMetadata`: `undefined` (an absent argument), a string, an object
(table) identified by reference, or some other primitive. -/
inductive JsValue : Type where
  | undef : JsValue
  | str : String → JsValue
  | obj : Target → JsValue
  | num : Int → JsValue
  | boolean : Bool → JsValue
deriving DecidableEq, Repr

/-- `typeIs(x, "string")`. -/
def typeIsString : JsValue → Bool
  | JsValue.str _ => true
  | _ => false

/-- `x === undefined`. -/
def isUndefined : JsValue → Bool
  | JsValue.undef => true
  | _ => false

/-- The `as string` cast applied under the guard of the declarative
branch, where the value is known to be a string. -/
def asString : JsValue → String
  | JsValue.str s => s
  | _ => ""

/-- Which way a `defineMetadata` call is handled: the declarative branch
returns an annotator capturing the key/value pair; the imperative branch
proceeds with the four positional arguments as target, key, value and
member name. -/
inductive DefineBranch : Type where
  | declarative : String → JsValue → DefineBranch
  | imperative : JsValue → JsValue → JsValue → JsValue → DefineBranch
deriving DecidableEq, Repr

/-- Whether the dispatch chose the declarative branch. -/
def DefineBranch.isDeclarative : DefineBranch → Bool
  | DefineBranch.declarative _ _ => true
  | DefineBranch.imperative _ _ _ _ => false

/-- The overload dispatch of `Reflector.defineMetadata`
(src/index.ts:78-101): the call is declarative when `metadataValue` and
`propertyKey` (third and fourth positional arguments) are both
`undefined` and the first argument is a string; otherwise imperative. -/
def defineMetadataDispatch (a1 a2 a3 a4 : JsValue) : DefineBranch :=
  if isUndefined a3 && isUndefined a4 && typeIsString a1 then
    DefineBranch.declarative (asString a1) a2
  else
    DefineBranch.imperative a1 a2 a3 a4

/-- The disambiguation rule in the spec's words: third and fourth
positional arguments absent, and the first argument's runtime type is a
string. -/
def declarativeShape (a1 a3 a4 : JsValue) : Prop :=
  a3 = JsValue.undef ∧ a4 = JsValue.undef ∧ ∃ k, a1 = JsValue.str k

instance (a1 a3 a4 : JsValue) : Decidable (declarativeShape a1 a3 a4) :=
  decidable_of_iff (a3 = JsValue.undef ∧ a4 = JsValue.undef ∧ typeIsString a1 = true)
    (by unfold declarativeShape; rcases a1 with _ | k | t | n | b <;> simp [typeIsString])

/-- One imperative `defineMetadata` call against a live target, as an
element of an execution trace. -/
structure DefCall (α : Type) : Type where
  target : Target
  key : String
  value : Option α
  member : Option String
deriving DecidableEq

/-- Run a trace of imperative `defineMetadata` calls from a given heap. -/
def runTrace {α : Type} (tr : List (DefCall α)) (s : StoreState α) : StoreState α :=
  tr.foldl (fun st c => applyDefine c.target c.key c.value c.member st) s

/-- Presence test for `metadataKey` inside one already-fetched store, the
combination `hasMetadata` computes after its `getMetadataStore` lookup
succeeded; factored out for the proofs below. -/
def hasInStore {α : Type} (st : MetadataStore α) (metadataKey : String) (keyId : String) : Bool :=
  MetadataStore.hasKey st keyId &&
    !(MMap.get ((MetadataStore.get st keyId).getD []) metadataKey).isNone

/-- The heap produced by a successful imperative define on a live target,
written out explicitly: the target's slot gets (or keeps) a store whose
scope map is wiped unless the key was already present, then receives the
key/value assignment; every other target is untouched. -/
def defineResult {α : Type} (tg : Target) (metadataKey : String) (metadataValue : Option α)
    (propertyKey : Option String) (s : StoreState α) : StoreState α :=
  let keyId := getKeyId (some tg) propertyKey
  let st0 := (s tg).getD []
  let st1 := if hasInStore st0 metadataKey keyId then st0
             else MetadataStore.set st0 keyId []
  let mm := (MetadataStore.get st1 keyId).getD []
  fun x => if x = tg then
             some (MetadataStore.set st1 keyId (MMap.set mm metadataKey metadataValue))
           else s x

/-- The spec's reading of `hasMetadata`: a slot exists for the target, a
metadata map exists for the scope `(target, memberName)`, and that map
holds the key with a value distinguishable from the absence sentinel.  To
be compared with the implementation `Reflector.hasMetadata`. -/
def hasMetadataSpec {α : Type} (target : Option Target) (metadataKey : String)
    (propertyKey : Option String) (s : StoreState α) : Prop :=
  ∃ st, Reflector.getMetadataStore target s = some st ∧
    ∃ mm, MetadataStore.get st (getKeyId target propertyKey) = some mm ∧
      MMap.get mm metadataKey ≠ none

theorem MMap.get_set_self {α : Type} (mm : MMap α) (k : String) (v : α) :
    MMap.get (MMap.set mm k (some v)) k = some v := by
  induction mm with
  | nil => simp [MMap.set, MMap.get]
  | cons p rest ih =>
      obtain ⟨k0, w⟩ := p
      by_cases h : k0 = k
      · simp [MMap.set, h, MMap.get]
      · simp [MMap.set, h, MMap.get, ih]

theorem MMap.get_set_ne {α : Type} (mm : MMap α) (k k' : String) (v : Option α)
    (h : k ≠ k') : MMap.get (MMap.set mm k v) k' = MMap.get mm k' := by
  induction mm with
  | nil => cases v <;> simp [MMap.set, MMap.get, h]
  | cons p rest ih =>
      obtain ⟨k0, w⟩ := p
      cases v with
      | none =>
          by_cases h0 : k0 = k
          · subst h0; simp [MMap.set, MMap.get, h]
          · simp [MMap.set, h0, MMap.get, ih]
      | some v0 =>
          by_cases h0 : k0 = k
          · subst h0; simp [MMap.set, MMap.get, h]
          · simp [MMap.set, h0, MMap.get, ih]

theorem MMap.set_get_self {α : Type} (mm : MMap α) (k : String) (v : α)
    (h : MMap.get mm k = some v) : MMap.set mm k (some v) = mm := by
  induction mm with
  | nil => simp [MMap.get] at h
  | cons p rest ih =>
      obtain ⟨k0, w⟩ := p
      by_cases h0 : k0 = k
      · subst h0
        simp [MMap.get] at h
        simp [MMap.set, h]
      · simp [MMap.get, h0] at h
        simp [MMap.set, h0, ih h]

theorem store_get_set_self {α : Type} (st : MetadataStore α) (k : String)
    (mm : MMap α) : MetadataStore.get (MetadataStore.set st k mm) k = some mm := by
  induction st with
  | nil => simp [MetadataStore.set, MetadataStore.get]
  | cons p rest ih =>
      obtain ⟨k0, m0⟩ := p
      by_cases h : k0 = k
      · simp [MetadataStore.set, h, MetadataStore.get]
      · simp [MetadataStore.set, h, MetadataStore.get, ih]

theorem store_get_set_ne {α : Type} (st : MetadataStore α) (k k' : String)
    (mm : MMap α) (h : k ≠ k') :
    MetadataStore.get (MetadataStore.set st k mm) k' = MetadataStore.get st k' := by
  induction st with
  | nil => simp [MetadataStore.set, MetadataStore.get, h]
  | cons p rest ih =>
      obtain ⟨k0, m0⟩ := p
      by_cases h0 : k0 = k
      · subst h0; simp [MetadataStore.set, MetadataStore.get, h]
      · simp [MetadataStore.set, h0, MetadataStore.get, ih]

theorem store_set_get_self {α : Type} (st : MetadataStore α) (k : String)
    (mm : MMap α) (h : MetadataStore.get st k = some mm) :
    MetadataStore.set st k mm = st := by
  induction st with
  | nil => simp [MetadataStore.get] at h
  | cons p rest ih =>
      obtain ⟨k0, m0⟩ := p
      by_cases h0 : k0 = k
      · subst h0
        simp [MetadataStore.get] at h
        simp [MetadataStore.set, h]
      · simp [MetadataStore.get, h0] at h
        simp [MetadataStore.set, h0, ih h]

theorem identityString_data (t : Target) :
    (identityString t).data = List.replicate (t + 1) 'i' := rfl

theorem keyId_none_ne_member (T : Target) (m : String) :
    getKeyId (some T) none ≠ getKeyId (some T) (some m) := by
  intro h
  have hd := congrArg String.data h
  simp only [getKeyId, tostringTarget, String.data_append] at hd
  have hl := congrArg List.length hd
  simp at hl

theorem keyId_member_inj (T : Target) (m1 m2 : String)
    (h : getKeyId (some T) (some m1) = getKeyId (some T) (some m2)) : m1 = m2 := by
  have hd := congrArg String.data h
  simp only [getKeyId, tostringTarget, String.data_append, List.append_assoc] at hd
  have hm := List.append_cancel_left hd
  have hm2 := List.append_cancel_left hm
  exact String.ext hm2

theorem hasMetadata_fst_eq {α : Type} (tg : Target) (k : String) (m : Option String)
    (s : StoreState α) :
    (Reflector.hasMetadata (some tg) k m s).1 =
      match s tg with
      | none => false
      | some st => hasInStore st k (getKeyId (some tg) m) := by
  cases hs : s tg with
  | none => simp [Reflector.hasMetadata, Reflector.getMetadataStore, hs]
  | some st =>
      simp only [Reflector.hasMetadata, Reflector.getMetadataStore, hs, hasInStore]
      by_cases hk : MetadataStore.hasKey st (getKeyId (some tg) m)
      · by_cases hn : (MMap.get ((MetadataStore.get st (getKeyId (some tg) m)).getD []) k).isNone
        · simp [hk, hn]
        · simp [hk, hn]
      · simp [hk]

theorem defineMetadata_some {α : Type} (tg : Target) (k : String) (v : Option α)
    (m : Option String) (s : StoreState α) :
    Reflector.defineMetadata (some tg) k v m s = Except.ok (defineResult tg k v m s) := by
  cases hs : s tg with
  | none =>
      simp only [Reflector.defineMetadata, Reflector.createOrGetMetadataStore, hs,
        defineResult, hasMetadata_fst_eq]
      simp [hasInStore, MetadataStore.hasKey, MetadataStore.get, MetadataStore.set]
      funext x
      by_cases hx : x = tg <;> simp [hx]
  | some st =>
      simp only [Reflector.defineMetadata, Reflector.createOrGetMetadataStore, hs,
        defineResult, hasMetadata_fst_eq]
      by_cases hk : hasInStore st k (getKeyId (some tg) m)
      · have hsome : (MetadataStore.get st (getKeyId (some tg) m)).isSome := by
          have h2 := hk
          simp [hasInStore, MetadataStore.hasKey] at h2
          exact h2.1
        obtain ⟨mm, hmm⟩ := Option.isSome_iff_exists.mp hsome
        simp [hk, hmm]
      · simp [hk, store_get_set_self]

theorem applyDefine_eq {α : Type} (tg : Target) (k : String) (v : Option α)
    (m : Option String) (s : StoreState α) :
    applyDefine tg k v m s = defineResult tg k v m s := by
  simp [applyDefine, defineMetadata_some]

theorem invokeAnnotator_eq_defineMetadata {α : Type} (metadataKey : String)
    (metadataValue : Option α) (target : Option Target) (propertyKey : Option String)
    (s : StoreState α) :
    Reflector.invokeAnnotator metadataKey metadataValue target propertyKey s =
      Reflector.defineMetadata target metadataKey metadataValue propertyKey s := rfl

theorem applyAnnotator_eq_applyDefine {α : Type} (metadataKey : String)
    (metadataValue : Option α) (tg : Target) (propertyKey : Option String)
    (s : StoreState α) :
    applyAnnotator metadataKey metadataValue tg propertyKey s =
      applyDefine tg metadataKey metadataValue propertyKey s := rfl

theorem getMetadata_fst_eq {α : Type} (tg : Target) (k : String) (m : Option String)
    (s : StoreState α) :
    (Reflector.getMetadata (some tg) k m s).1 =
      match s tg with
      | none => none
      | some st =>
          if MetadataStore.hasKey st (getKeyId (some tg) m) then
            MMap.get ((MetadataStore.get st (getKeyId (some tg) m)).getD []) k
          else none := by
  cases hs : s tg with
  | none => simp [Reflector.getMetadata, Reflector.getMetadataStore, hs]
  | some st =>
      simp only [Reflector.getMetadata, Reflector.getMetadataStore, hs]
      by_cases hk : MetadataStore.hasKey st (getKeyId (some tg) m) <;> simp [hk]

theorem defineResult_apply_ne {α : Type} (tg x : Target) (k : String) (v : Option α)
    (m : Option String) (s : StoreState α) (hx : x ≠ tg) :
    defineResult tg k v m s x = s x := by
  simp [defineResult, hx]

theorem defineResult_apply_self {α : Type} (tg : Target) (k : String) (v : Option α)
    (m : Option String) (s : StoreState α) :
    defineResult tg k v m s tg =
      some (MetadataStore.set
        (if hasInStore ((s tg).getD []) k (getKeyId (some tg) m) then (s tg).getD []
         else MetadataStore.set ((s tg).getD []) (getKeyId (some tg) m) [])
        (getKeyId (some tg) m)
        (MMap.set ((MetadataStore.get
            (if hasInStore ((s tg).getD []) k (getKeyId (some tg) m) then (s tg).getD []
             else MetadataStore.set ((s tg).getD []) (getKeyId (some tg) m) [])
            (getKeyId (some tg) m)).getD []) k v)) := by
  simp [defineResult]

theorem getMetadata_applyDefine_same {α : Type} (tg : Target) (k : String) (v : α)
    (m : Option String) (s : StoreState α) :
    (Reflector.getMetadata (some tg) k m (applyDefine tg k (some v) m s)).1 = some v := by
  rw [applyDefine_eq, getMetadata_fst_eq]
  simp [defineResult_apply_self, MetadataStore.hasKey, store_get_set_self,
    MMap.get_set_self]

theorem hasMetadata_applyDefine_same {α : Type} (tg : Target) (k : String) (v : α)
    (m : Option String) (s : StoreState α) :
    (Reflector.hasMetadata (some tg) k m (applyDefine tg k (some v) m s)).1 = true := by
  rw [applyDefine_eq, hasMetadata_fst_eq]
  simp [defineResult_apply_self, hasInStore, MetadataStore.hasKey,
    store_get_set_self, MMap.get_set_self]

theorem hasMetadata_applyDefine_other_target {α : Type} (tg tg' : Target) (k k' : String)
    (v : Option α) (m m' : Option String) (s : StoreState α) (h : tg' ≠ tg) :
    (Reflector.hasMetadata (some tg') k' m' (applyDefine tg k v m s)).1 =
      (Reflector.hasMetadata (some tg') k' m' s).1 := by
  rw [applyDefine_eq, hasMetadata_fst_eq, hasMetadata_fst_eq,
    defineResult_apply_ne tg tg' k v m s h]

theorem getMetadata_applyDefine_other_target {α : Type} (tg tg' : Target) (k k' : String)
    (v : Option α) (m m' : Option String) (s : StoreState α) (h : tg' ≠ tg) :
    (Reflector.getMetadata (some tg') k' m' (applyDefine tg k v m s)).1 =
      (Reflector.getMetadata (some tg') k' m' s).1 := by
  rw [applyDefine_eq, getMetadata_fst_eq, getMetadata_fst_eq,
    defineResult_apply_ne tg tg' k v m s h]

theorem get_defineResult_slot_other_scope {α : Type} (tg : Target) (k : String)
    (v : Option α) (m : Option String) (s : StoreState α) (kid' : String)
    (h : kid' ≠ getKeyId (some tg) m) :
    MetadataStore.get ((defineResult tg k v m s tg).getD []) kid' =
      MetadataStore.get ((s tg).getD []) kid' := by
  rw [defineResult_apply_self]
  rw [Option.getD_some]
  rw [store_get_set_ne _ _ _ _ (fun he => h he.symm)]
  by_cases hk : hasInStore ((s tg).getD []) k (getKeyId (some tg) m)
  · simp [hk]
  · simp [hk, store_get_set_ne _ _ _ _ (fun he => h he.symm)]

theorem getMetadata_applyDefine_other_scope {α : Type} (tg : Target) (k k' : String)
    (v : Option α) (m m' : Option String) (s : StoreState α)
    (h : getKeyId (some tg) m' ≠ getKeyId (some tg) m) :
    (Reflector.getMetadata (some tg) k' m' (applyDefine tg k v m s)).1 =
      (Reflector.getMetadata (some tg) k' m' s).1 := by
  rw [applyDefine_eq, getMetadata_fst_eq, getMetadata_fst_eq]
  have hget := get_defineResult_slot_other_scope tg k v m s (getKeyId (some tg) m') h
  cases hd : defineResult tg k v m s tg with
  | none =>
      exfalso
      rw [defineResult_apply_self] at hd
      exact Option.noConfusion hd
  | some st1 =>
      cases hs : s tg with
      | none =>
          rw [hd, hs] at hget
          simp at hget
          simp [MetadataStore.hasKey, hget, MetadataStore.get]
      | some st0 =>
          rw [hd, hs] at hget
          simp at hget
          simp [MetadataStore.hasKey, hget]

theorem hasMetadata_applyDefine_other_scope {α : Type} (tg : Target) (k k' : String)
    (v : Option α) (m m' : Option String) (s : StoreState α)
    (h : getKeyId (some tg) m' ≠ getKeyId (some tg) m) :
    (Reflector.hasMetadata (some tg) k' m' (applyDefine tg k v m s)).1 =
      (Reflector.hasMetadata (some tg) k' m' s).1 := by
  rw [applyDefine_eq, hasMetadata_fst_eq, hasMetadata_fst_eq]
  have hget := get_defineResult_slot_other_scope tg k v m s (getKeyId (some tg) m') h
  cases hd : defineResult tg k v m s tg with
  | none =>
      exfalso
      rw [defineResult_apply_self] at hd
      exact Option.noConfusion hd
  | some st1 =>
      cases hs : s tg with
      | none =>
          rw [hd, hs] at hget
          simp at hget
          simp [hasInStore, MetadataStore.hasKey, hget, MetadataStore.get]
      | some st0 =>
          rw [hd, hs] at hget
          simp at hget
          simp [hasInStore, MetadataStore.hasKey, hget]

theorem hasMetadata_applyDefine_preserve_absent {α : Type} (tg : Target) (k k' : String)
    (v : Option α) (m : Option String) (s : StoreState α) (hk : k' ≠ k)
    (hfalse : (Reflector.hasMetadata (some tg) k' m s).1 = false) :
    (Reflector.hasMetadata (some tg) k' m (applyDefine tg k v m s)).1 = false := by
  rw [applyDefine_eq, hasMetadata_fst_eq, defineResult_apply_self]
  rw [hasMetadata_fst_eq] at hfalse
  cases hmd : hasInStore ((s tg).getD []) k (getKeyId (some tg) m) with
  | false =>
      simp only [hmd, Bool.false_eq_true, if_false]
      simp [hasInStore, MetadataStore.hasKey, store_get_set_self,
        MMap.get_set_ne _ k k' v (fun he => hk he.symm), MMap.get]
  | true =>
      simp only [hmd, if_true]
      cases hs : s tg with
      | none =>
          rw [hs] at hmd
          simp [hasInStore, MetadataStore.hasKey, MetadataStore.get] at hmd
      | some st =>
          rw [hs] at hfalse hmd
          simp only [Option.getD_some] at hmd ⊢
          have h2 := hmd
          simp only [hasInStore, Bool.and_eq_true] at h2
          obtain ⟨hkey, _⟩ := h2
          have habs : MMap.get ((MetadataStore.get st (getKeyId (some tg) m)).getD [])
              k' = none := by
            simp [hasInStore, hkey] at hfalse
            simpa using hfalse
          simp [hasInStore, MetadataStore.hasKey, store_get_set_self,
            MMap.get_set_ne _ k k' v (fun he => hk he.symm), habs]

theorem applyDefine_idem {α : Type} (tg : Target) (k : String) (v : α)
    (m : Option String) (s : StoreState α) :
    applyDefine tg k (some v) m (applyDefine tg k (some v) m s) =
      applyDefine tg k (some v) m s := by
  rw [applyDefine_eq, applyDefine_eq]
  funext x
  by_cases hx : x = tg
  · rw [hx]
    rw [defineResult_apply_self]
    rw [defineResult_apply_self tg k (some v) m s]
    simp only [Option.getD_some]
    simp only [hasInStore, MetadataStore.hasKey, store_get_set_self,
      Option.isSome_some, Option.getD_some, MMap.get_set_self, Option.isNone_some,
      Bool.not_false, Bool.and_true, Bool.true_and, if_true]
    rw [MMap.set_get_self _ _ _ (MMap.get_set_self _ _ _)]
    rw [store_set_get_self _ _ _ (store_get_set_self _ _ _)]
  · rw [defineResult_apply_ne _ _ _ _ _ _ hx]

/-- C1 The claim fails on the code: after `defineMetadata(T, "version", "1.0")`
followed by `defineMetadata(T, "author", "John Doe")` in the entity scope,
`getMetadataKeys(T)` returns only `["author"]`, not both keys — defining a
key that is not yet present replaces the scope's whole metadata map with a
fresh one (src/index.ts:108 guards on `hasMetadata` for the new key instead
of on the map's existence), contradicting the function's own documentation
example (src/index.ts:125-129). -/
theorem c1_getMetadataKeys_drops_previous_keys :
    (Reflector.getMetadataKeys (some 0) none
      (applyDefine 0 "author" (some "John Doe") none
        (applyDefine 0 "version" (some "1.0") none
          (emptyState : StoreState String)))).1 = some ["author"] := by
  decide

/-- C2 The claim fails on the code: an imperative `defineMetadata` with a
nil/absent target raises (attempt to index nil) instead of being a silent
no-op, because `createOrGetMetadataStore` (src/index.ts:243) returns
`target.__metadataStore` unconditionally after its truthiness guard
skipped the nil target. -/
theorem c2_defineMetadata_nil_target_raises :
    Reflector.defineMetadata none "key" (some "value") none
      (emptyState : StoreState String) = Except.error LuauError.indexNil := rfl

/-- C4 The overload dispatch of `defineMetadata` chooses the declarative
branch exactly when the third and fourth positional arguments are absent
and the first argument's runtime type is a string; every other argument
shape flows to the imperative branch with the four arguments unchanged. -/
theorem c4_dispatch_declarative_iff (a1 a2 a3 a4 : JsValue) :
    ((defineMetadataDispatch a1 a2 a3 a4).isDeclarative = true ↔
      declarativeShape a1 a3 a4) ∧
    (defineMetadataDispatch a1 a2 a3 a4 = DefineBranch.imperative a1 a2 a3 a4 ∨
      (defineMetadataDispatch a1 a2 a3 a4).isDeclarative = true) := by
  constructor
  · rcases a1 with _ | k1 | t1 | n1 | b1 <;> rcases a3 with _ | k3 | t3 | n3 | b3 <;>
      rcases a4 with _ | k4 | t4 | n4 | b4 <;>
      simp [defineMetadataDispatch, declarativeShape, isUndefined, typeIsString,
        DefineBranch.isDeclarative]
  · by_cases hd : isUndefined a3 && isUndefined a4 && typeIsString a1
    · right
      simp [defineMetadataDispatch, hd, DefineBranch.isDeclarative]
    · left
      simp [defineMetadataDispatch, hd]

/-- C6 The three read operations `getMetadataKeys`, `hasMetadata` and
`getMetadata` return the heap unchanged for every target, key, member and
state: a read never creates a slot or a metadata map. -/
theorem c6_reads_leave_state_unchanged {α : Type} (target : Option Target)
    (metadataKey : String) (propertyKey : Option String) (s : StoreState α) :
    (Reflector.getMetadataKeys target propertyKey s).2 = s ∧
    (Reflector.hasMetadata target metadataKey propertyKey s).2 = s ∧
    (Reflector.getMetadata target metadataKey propertyKey s).2 = s := by
  refine ⟨?_, ?_, ?_⟩
  · unfold Reflector.getMetadataKeys
    split
    · rfl
    · dsimp only
      split <;> rfl
  · unfold Reflector.hasMetadata
    split
    · rfl
    · dsimp only
      split
      · rfl
      · split <;> rfl
  · unfold Reflector.getMetadata
    split
    · rfl
    · dsimp only
      split <;> rfl

/-- C9 `hasMetadata` returns true exactly when a slot exists for the
target, a metadata map exists for the scope `(target, memberName)`, and
that map holds the key with a value distinguishable from the absence
sentinel; it returns false otherwise, in particular for an absent target.
(The operation is a total function of the heap, so it never raises; and
since assigning `nil` into a Lua table removes the key, a caller who
stores the sentinel ends up with the key reported as not present.) -/
theorem c9_hasMetadata_presence {α : Type} (target : Option Target)
    (metadataKey : String) (propertyKey : Option String) (s : StoreState α) :
    ((Reflector.hasMetadata target metadataKey propertyKey s).1 = true ↔
      hasMetadataSpec target metadataKey propertyKey s) ∧
    (Reflector.hasMetadata none metadataKey propertyKey s).1 = false := by
  constructor
  · unfold Reflector.hasMetadata hasMetadataSpec
    cases hst : Reflector.getMetadataStore target s with
    | none => simp
    | some st =>
        cases hmm : MetadataStore.get st (getKeyId target propertyKey) with
        | none => simp [MetadataStore.hasKey, hmm]
        | some mm =>
            by_cases hn : (MMap.get mm metadataKey).isNone
            · simp [MetadataStore.hasKey, hmm, hn, Option.isNone_iff_eq_none.mp hn]
            · simp [MetadataStore.hasKey, hmm, hn]
              exact fun hcontra => hn (by simp [hcontra])
  · simp [Reflector.hasMetadata, Reflector.getMetadataStore]

/-- C10 `hasMetadata` and `getMetadata` agree on presence in every heap
(hence in every reachable one): `hasMetadata` is true exactly when
`getMetadata` yields a non-absent value. -/
theorem c10_has_agrees_with_get {α : Type} (target : Option Target)
    (metadataKey : String) (propertyKey : Option String) (s : StoreState α) :
    (Reflector.hasMetadata target metadataKey propertyKey s).1 =
      ((Reflector.getMetadata target metadataKey propertyKey s).1).isSome := by
  unfold Reflector.hasMetadata Reflector.getMetadata
  cases hst : Reflector.getMetadataStore target s with
  | none => rfl
  | some st =>
      by_cases hk : MetadataStore.hasKey st (getKeyId target propertyKey)
      · cases hv : MMap.get ((MetadataStore.get st
            (getKeyId target propertyKey)).getD []) metadataKey with
        | none => simp [hk, hv]
        | some v0 => simp [hk, hv]
      · simp [hk]

theorem hasMetadata_emptyState {α : Type} (T : Target) (K : String) (m : Option String) :
    (Reflector.hasMetadata (some T) K m (emptyState : StoreState α)).1 = false := by
  simp [hasMetadata_fst_eq, emptyState]

theorem trace_preserves_absent {α : Type} (T : Target) (K : String) :
    ∀ (tr : List (DefCall α)) (s : StoreState α),
      (∀ c ∈ tr, ¬(c.target = T ∧ c.key = K ∧ c.member = none)) →
      (Reflector.hasMetadata (some T) K none s).1 = false →
      (Reflector.hasMetadata (some T) K none (runTrace tr s)).1 = false := by
  intro tr
  induction tr with
  | nil => intro s _ hs; simpa [runTrace] using hs
  | cons c rest ih =>
      intro s hc hs
      have hstep : (Reflector.hasMetadata (some T) K none
          (applyDefine c.target c.key c.value c.member s)).1 = false := by
        by_cases ht : c.target = T
        · cases hm : c.member with
          | none =>
              have hk : c.key ≠ K := by
                intro hkk
                exact hc c (List.mem_cons_self c rest) ⟨ht, hkk, hm⟩
              rw [ht]
              exact hasMetadata_applyDefine_preserve_absent T c.key K c.value none s
                (fun he => hk he.symm) hs
          | some mem =>
              rw [ht]
              rw [hasMetadata_applyDefine_other_scope T c.key K c.value (some mem) none s
                (keyId_none_ne_member T mem)]
              exact hs
        · rw [hasMetadata_applyDefine_other_target c.target T c.key K c.value
            c.member none s (fun he => ht he.symm)]
          exact hs
      have htl : ∀ c2 ∈ rest, ¬(c2.target = T ∧ c2.key = K ∧ c2.member = none) :=
        fun c2 h2 => hc c2 (List.mem_cons_of_mem c h2)
      have := ih (applyDefine c.target c.key c.value c.member s) htl hstep
      simpa [runTrace] using this

/-- C3 `hasMetadata(T, K)` is false after any sequence of define calls
none of which targets `(T, K)` in the entity scope — in particular before
any `defineMetadata(T, K, V)` has occurred — and is true immediately after
an imperative `defineMetadata(T, K, V)` with a proper value, from any
starting heap. -/
theorem c3_hasMetadata_before_after_define {α : Type} (T : Target) (K : String)
    (tr : List (DefCall α)) (v : α) (s : StoreState α)
    (h : ∀ c ∈ tr, ¬(c.target = T ∧ c.key = K ∧ c.member = none)) :
    (Reflector.hasMetadata (some T) K none
        (runTrace tr (emptyState : StoreState α))).1 = false ∧
    (Reflector.hasMetadata (some T) K none (applyDefine T K (some v) none s)).1 = true :=
  ⟨trace_preserves_absent T K tr emptyState h (hasMetadata_emptyState T K none),
   hasMetadata_applyDefine_same T K v none s⟩

/-- C3 witness: a concrete trace touching another target, another entity
key, and a member scope of the same target leaves `hasMetadata(0, "k")`
false, and one entity-scope define of `"k"` makes it true. -/
theorem c3_witness :
    (Reflector.hasMetadata (some 0) "k" none
        (runTrace [DefCall.mk 1 "k" (some "v") none,
                   DefCall.mk 0 "other" (some "w") none,
                   DefCall.mk 0 "k" (some "u") (some "m")]
          (emptyState : StoreState String))).1 = false ∧
    (Reflector.hasMetadata (some 0) "k" none
        (applyDefine 0 "k" (some "v") none (emptyState : StoreState String))).1 = true :=
  c3_hasMetadata_before_after_define 0 "k"
    [DefCall.mk 1 "k" (some "v") none,
     DefCall.mk 0 "other" (some "w") none,
     DefCall.mk 0 "k" (some "u") (some "m")] "v" emptyState (by decide)

/-- C5 Member-scoped metadata is isolated: defining key `K` on member
`m1` of target `T` changes neither the entity-scope `getMetadata(T, K)`
nor the reading of the same key on a different member `m2`. -/
theorem c5_member_scope_isolated {α : Type} (T : Target) (K : String) (v1 : α)
    (m1 m2 : String) (s : StoreState α) (h : m1 ≠ m2) :
    (Reflector.getMetadata (some T) K none
        (applyDefine T K (some v1) (some m1) s)).1 =
      (Reflector.getMetadata (some T) K none s).1 ∧
    (Reflector.getMetadata (some T) K (some m2)
        (applyDefine T K (some v1) (some m1) s)).1 =
      (Reflector.getMetadata (some T) K (some m2) s).1 := by
  constructor
  · exact getMetadata_applyDefine_other_scope T K K (some v1) (some m1) none s
      (keyId_none_ne_member T m1)
  · exact getMetadata_applyDefine_other_scope T K K (some v1) (some m1) (some m2) s
      (fun he => h (keyId_member_inj T m2 m1 he).symm)

/-- C5 witness at a concrete target, key, value and distinct members. -/
theorem c5_witness :
    (Reflector.getMetadata (some 0) "k" none
        (applyDefine 0 "k" (some "v") (some "m1") (emptyState : StoreState String))).1 =
      (Reflector.getMetadata (some 0) "k" none (emptyState : StoreState String)).1 ∧
    (Reflector.getMetadata (some 0) "k" (some "m2")
        (applyDefine 0 "k" (some "v") (some "m1") (emptyState : StoreState String))).1 =
      (Reflector.getMetadata (some 0) "k" (some "m2") (emptyState : StoreState String)).1 :=
  c5_member_scope_isolated 0 "k" "v" "m1" "m2" emptyState (by decide)

/-- C7 After any nonempty sequence of entity-scope defines for `(T, K)`,
`getMetadata(T, K)` returns exactly the value of the most recent one:
redefining overwrites rather than accumulates. -/
theorem c7_getMetadata_last_write_wins {α : Type} (T : Target) (K : String) :
    ∀ (vs : List α) (s : StoreState α), vs ≠ [] →
      (Reflector.getMetadata (some T) K none
          (vs.foldl (fun st v => applyDefine T K (some v) none st) s)).1 =
        vs.getLast? := by
  intro vs
  induction vs with
  | nil => intro s h; exact absurd rfl h
  | cons v rest ih =>
      intro s _
      cases rest with
      | nil =>
          simp only [List.foldl, List.getLast?]
          exact getMetadata_applyDefine_same T K v none s
      | cons r rs =>
          rw [List.getLast?_cons_cons]
          have h2 := ih (applyDefine T K (some v) none s) (by simp)
          simpa [List.foldl] using h2

/-- C7 witness: two successive entity-scope defines of the same key leave
the second value. -/
theorem c7_witness :
    (Reflector.getMetadata (some 0) "k" none
        ((["a", "b"] : List String).foldl
          (fun st v => applyDefine 0 "k" (some v) none st)
          (emptyState : StoreState String))).1 = (["a", "b"] : List String).getLast? :=
  c7_getMetadata_last_write_wins 0 "k" ["a", "b"] emptyState (by decide)

/-- C8 The annotator returned by the declarative form is reusable:
invoking it (entity scope) on two different targets defines the captured
key/value pair independently on each, so `getMetadata` yields the captured
value on both; each invocation's body is exactly the imperative define
with the captured key and value; and invoking it twice on the same target
overwrites rather than accumulates (the second invocation changes
nothing). -/
theorem c8_annotator_reusable {α : Type} (K : String) (v : α) (A B : Target)
    (s : StoreState α) (h : A ≠ B) :
    (Reflector.getMetadata (some A) K none
        (applyAnnotator K (some v) B none (applyAnnotator K (some v) A none s))).1 =
      some v ∧
    (Reflector.getMetadata (some B) K none
        (applyAnnotator K (some v) B none (applyAnnotator K (some v) A none s))).1 =
      some v ∧
    Reflector.invokeAnnotator K (some v) (some A) none s =
      Reflector.defineMetadata (some A) K (some v) none s ∧
    applyAnnotator K (some v) A none (applyAnnotator K (some v) A none s) =
      applyAnnotator K (some v) A none s := by
  refine ⟨?_, ?_, rfl, ?_⟩
  · rw [applyAnnotator_eq_applyDefine, applyAnnotator_eq_applyDefine]
    rw [getMetadata_applyDefine_other_target B A K K (some v) none none _ h]
    exact getMetadata_applyDefine_same A K v none s
  · rw [applyAnnotator_eq_applyDefine, applyAnnotator_eq_applyDefine]
    exact getMetadata_applyDefine_same B K v none _
  · rw [applyAnnotator_eq_applyDefine, applyAnnotator_eq_applyDefine]
    exact applyDefine_idem A K v none s

/-- C8 witness at a concrete key, value and pair of distinct targets. -/
theorem c8_witness :
    (Reflector.getMetadata (some 0) "tag" none
        (applyAnnotator "tag" (some "v") 1 none
          (applyAnnotator "tag" (some "v") 0 none (emptyState : StoreState String)))).1 =
      some "v" ∧
    (Reflector.getMetadata (some 1) "tag" none
        (applyAnnotator "tag" (some "v") 1 none
          (applyAnnotator "tag" (some "v") 0 none (emptyState : StoreState String)))).1 =
      some "v" ∧
    Reflector.invokeAnnotator "tag" (some "v") (some 0) none
        (emptyState : StoreState String) =
      Reflector.defineMetadata (some 0) "tag" (some "v") none
        (emptyState : StoreState String) ∧
    applyAnnotator "tag" (some "v") 0 none
        (applyAnnotator "tag" (some "v") 0 none (emptyState : StoreState String)) =
      applyAnnotator "tag" (some "v") 0 none (emptyState : StoreState String) :=
  c8_annotator_reusable "tag" "v" 0 1 emptyState (by decide)
